import Mathlib

/-!
Verification development for the MemPool crate (nuno1212s/MemPool, src/lib.rs).

The crate implements a concurrent sharded object pool.  We give a shallow
embedding of its data model and operations as pure Lean functions:

* `MemPool` mirrors the Rust `MemPool<T>` struct.  Each bucket
  (`Mutex<Vec<T>>` in Rust) is a `List T`; `Vec::push` appends at the end of
  the list and `Vec::pop` removes the last element, matching `Vec` semantics.
* The atomic counters `pull_ctr` / `insert_ctr` are `Nat` fields of the state;
  `fetch_add(1, Relaxed)` returns the old value and stores the successor
  modulo `USIZE` (`AtomicUsize` wraps on overflow; we model a 64-bit target).
* Operations that can panic in Rust (`%` by zero when the pool has zero
  buckets, out-of-bounds indexing, a hit of an `unreachable!()` arm) are
  embedded as `Option`-valued functions where `none` marks the panic.
* Handles (`ModifiableMemShare`, `ShareableMemShare`) store only their
  `mem : Option T` payload.  Their `pool: Arc<MemPool<T>>` field is a
  reference to the single pool whose state the embedding threads explicitly,
  so pool mutation performed by a handle (the `Drop` impls) is modelled by
  functions taking and returning the pool state.
* The `loop`s in `re_attach` and `try_pull_from_all_buckets` increment a
  local counter `bucket_inc` and exit once it passes a bound that is fixed
  before the loop starts; we embed them with an explicit `fuel` argument equal
  to the number of iterations left before the exit test fires, which makes the
  recursion structural (and hence computable by `decide`/`rfl`).
-/

/-- Modulus of `AtomicUsize` on a 64-bit target, i.e. `usize::MAX + 1`. -/
def USIZE : Nat := 2 ^ 64

/-- Embedding of `MemPool<T>`: `buckets: Vec<Mutex<Vec<T>>>`,
`pull_ctr: AtomicUsize`, `insert_ctr: AtomicUsize`, `capacity: usize`. -/
structure MemPool (T : Type) where
  buckets : List (List T)
  pull_ctr : Nat
  insert_ctr : Nat
  capacity : Nat
deriving DecidableEq, Repr

/-- Embedding of `ModifiableMemShare<T>` (the Exclusive Handle): it holds
`mem: Option<T>`.  The `pool: Arc<MemPool<T>>` field is represented
implicitly: the pool state is threaded explicitly through the functions that
use it. -/
structure ModifiableMemShare (T : Type) where
  mem : Option T
deriving DecidableEq, Repr

/-- Embedding of `ShareableMemShare<T>` (the Shared Handle): `mem: Option<T>`,
with the `pool` reference implicit as for `ModifiableMemShare`. -/
structure ShareableMemShare (T : Type) where
  mem : Option T
deriving DecidableEq, Repr

/-- A minimal model of `std::sync::Arc`: a strong reference count together
with the shared value.  `Arc::new` yields count 1; `Arc::clone` increments
the count and aliases the same value. -/
structure ArcCell (A : Type) where
  strong : Nat
  value : A
deriving DecidableEq, Repr

/-- Model of `Arc::new(v)`. -/
def ArcCell.new {A : Type} (v : A) : ArcCell A := ⟨1, v⟩

/-- Model of `Arc::clone(&a)`: one more strong reference to the same value. -/
def ArcCell.clone {A : Type} (a : ArcCell A) : ArcCell A := ⟨a.strong + 1, a.value⟩

/-- Embedding of `MemPool::new(bucket_count, capacity_per_bucket, init_fn)`.
The Rust `init_fn: F: Fn() -> T` closure may be impure; we model its
successive invocations by indexing: the `k`-th call returns `init_fn k`.
Calls happen bucket-major (`for` over buckets, inner `for` pushing
`capacity_per_bucket` items), so bucket `i` is the vector
`[init_fn (i*c), …, init_fn (i*c + c - 1)]` in push order.  The `Arc::new`
wrapper around the result is the identity in the embedding. -/
def MemPool.new {T : Type} (bucket_count capacity_per_bucket : Nat)
    (init_fn : Nat → T) : MemPool T :=
  { buckets := (List.range bucket_count).map
      (fun i => (List.range capacity_per_bucket).map
        (fun j => init_fn (i * capacity_per_bucket + j)))
    pull_ctr := 0
    insert_ctr := 0
    capacity := capacity_per_bucket }

/-- Embedding of `MemPool::try_pull_from_bucket(bucket)`: lock bucket
`bucket`, `pop()` it, and wrap a popped item in a `ModifiableMemShare` with
`mem: Some(mem)`.  `self.buckets[bucket]` panics when the index is out of
bounds, which the outer `none` marks. -/
def MemPool.try_pull_from_bucket {T : Type} (p : MemPool T) (bucket : Nat) :
    Option (Option (ModifiableMemShare T) × MemPool T) :=
  match p.buckets.get? bucket with
  | none => none
  | some bv =>
    match bv.getLast? with
    | none => some (none, p)
    | some m =>
      some (some ⟨some m⟩, { p with buckets := p.buckets.set bucket bv.dropLast })

/-- Embedding of `MemPool::try_pull()`: `fetch_add` on `pull_ctr` (the old
value selects the bucket, the incremented value is stored), then
`try_pull_from_bucket(round_robin % len)`.  When the pool has zero buckets
the `%` by zero panics (`none`). -/
def MemPool.try_pull {T : Type} (p : MemPool T) :
    Option (Option (ModifiableMemShare T) × MemPool T) :=
  if p.buckets.length = 0 then none
  else
    MemPool.try_pull_from_bucket
      { p with pull_ctr := (p.pull_ctr + 1) % USIZE }
      (p.pull_ctr % p.buckets.length)

/-- The `loop` body of `MemPool::try_pull_from_all_buckets`.  The source
breaks when `bucket_inc >= bucket_len`, so the iteration starting at
`bucket_inc = inc` runs `bucket_len - inc` more times; `fuel` carries that
count, making the recursion structural.  Each iteration calls
`try_pull_from_bucket((bucket + bucket_inc) % bucket_len)` and returns on a
hit. -/
def MemPool.try_pull_all_loop {T : Type} (p : MemPool T) (n b inc fuel : Nat) :
    Option (Option (ModifiableMemShare T) × MemPool T) :=
  match fuel with
  | 0 => some (none, p)
  | fuel + 1 =>
    match MemPool.try_pull_from_bucket p ((b + inc) % n) with
    | none => none
    | some (some h, p2) => some (some h, p2)
    | some (none, p2) => MemPool.try_pull_all_loop p2 n b (inc + 1) fuel

/-- Embedding of `MemPool::try_pull_from_all_buckets()`: `fetch_add` on
`pull_ctr`, compute the starting bucket `round_robin % bucket_len` (`%` by
zero panics on an empty pool), then probe `bucket_len` buckets wrapping from
the start, returning the first hit or `None` after the loop. -/
def MemPool.try_pull_from_all_buckets {T : Type} (p : MemPool T) :
    Option (Option (ModifiableMemShare T) × MemPool T) :=
  if p.buckets.length = 0 then none
  else
    MemPool.try_pull_all_loop
      { p with pull_ctr := (p.pull_ctr + 1) % USIZE }
      p.buckets.length (p.pull_ctr % p.buckets.length) 0 p.buckets.length

/-- Embedding of `MemPool::pull_with_fallback(fallback)`.  The Rust
`fallback: F: Fn() -> T` closure may be impure, so we thread an explicit
closure state `σ : S`: invoking the closure once maps `σ` to
`(item, new state)`.  On a miss of `try_pull_from_all_buckets` the closure is
invoked exactly once and its item is wrapped in
`ModifiableMemShare { pool: Arc::clone(self), mem: Some(fallback()) }`;
on a hit the closure is not invoked and the pulled handle is returned. -/
def MemPool.pull_with_fallback {T S : Type} (p : MemPool T) (σ : S)
    (fb : S → T × S) : Option (ModifiableMemShare T × MemPool T × S) :=
  match MemPool.try_pull_from_all_buckets p with
  | none => none
  | some (none, p2) => some (⟨some (fb σ).1⟩, p2, (fb σ).2)
  | some (some h, p2) => some (h, p2, σ)

/-- The `loop` body of `MemPool::re_attach`.  The source breaks when
`bucket_inc > bucket_len` (note the strict `>`: the loop can run
`bucket_len + 1` iterations, re-probing the starting bucket once at the end),
so from `bucket_inc = inc` there are `bucket_len + 1 - inc` iterations left;
`fuel` carries that count.  Each iteration locks bucket
`(bucket + bucket_inc) % bucket_len`; if its length has reached `capacity`
it moves on, otherwise it pushes the item and breaks.  Falling out of the
loop discards the item (the buckets are returned unchanged).  Out-of-bounds
indexing would panic (`none`); it cannot happen when `n` is the bucket
count and is positive. -/
def MemPool.re_attach_loop {T : Type} (x : T) (cap n b : Nat)
    (bs : List (List T)) (inc fuel : Nat) : Option (List (List T)) :=
  match fuel with
  | 0 => some bs
  | fuel + 1 =>
    match bs.get? ((b + inc) % n) with
    | none => none
    | some bj =>
      if cap ≤ bj.length then
        MemPool.re_attach_loop x cap n b bs (inc + 1) fuel
      else
        some (bs.set ((b + inc) % n) (bj ++ [x]))

/-- Embedding of `MemPool::re_attach(mem)`: `fetch_add` on `insert_ctr` (the
old value selects the starting bucket, the incremented value is stored; the
`%` by zero panics on an empty pool), then the speculative insert loop over
the buckets; if no bucket has room the item is dropped on the floor. -/
def MemPool.re_attach {T : Type} (p : MemPool T) (x : T) : Option (MemPool T) :=
  if p.buckets.length = 0 then none
  else
    (MemPool.re_attach_loop x p.capacity p.buckets.length
        (p.insert_ctr % p.buckets.length) p.buckets 0 (p.buckets.length + 1)).map
      (fun bs =>
        { p with buckets := bs, insert_ctr := (p.insert_ctr + 1) % USIZE })

/-- Embedding of `ModifiableMemShare::freeze(mut self)`: `self.mem.take()`
moves the payload into a fresh `Arc::new(ShareableMemShare { .. })` (strong
count 1); the consumed `self` — returned here as the second component so its
subsequent implicit drop can be reasoned about — is left with `mem: None`. -/
def ModifiableMemShare.freeze {T : Type} (h : ModifiableMemShare T) :
    ArcCell (ShareableMemShare T) × ModifiableMemShare T :=
  (ArcCell.new ⟨h.mem⟩, ⟨none⟩)

/-- Embedding of `<ModifiableMemShare as PooledMem>::detach(mut self)`.  The
impl takes the payload out of `self.mem` and returns it **paired with
`self.pool.clone()`** (the pool reference is implicit in the embedding, the
pool state being threaded separately); the trait `PooledMem` declares
`fn detach(self) -> T`, so the crate as written does not compile.  The
residual consumed `self` (second component, `mem: None`) is dropped when
`detach` returns.  The `None` arm is `unreachable!()`, i.e. a panic (`none`). -/
def ModifiableMemShare.detach {T : Type} (h : ModifiableMemShare T) :
    Option (T × ModifiableMemShare T) :=
  match h.mem with
  | some m => some (m, ⟨none⟩)
  | none => none

/-- Embedding of `<ModifiableMemShare as Deref>::deref`: returns the payload;
the `None` arm is `unreachable!()`, i.e. a panic (`none`). -/
def ModifiableMemShare.deref {T : Type} (h : ModifiableMemShare T) : Option T :=
  match h.mem with
  | none => none
  | some m => some m

/-- Embedding of `<ModifiableMemShare as DerefMut>::deref_mut`: same shape as
`deref` (the mutable borrow it grants is outside the state model). -/
def ModifiableMemShare.deref_mut {T : Type} (h : ModifiableMemShare T) : Option T :=
  match h.mem with
  | none => none
  | some m => some m

/-- Embedding of `<ModifiableMemShare as Drop>::drop`: take the payload; if it
is still present hand it to `re_attach`, otherwise do nothing (the memory was
already taken by `detach` or `freeze`).  Takes and returns the pool state;
`none` propagates a panic from `re_attach` (zero-bucket pool). -/
def dropModifiable {T : Type} (p : MemPool T) (h : ModifiableMemShare T) :
    Option (MemPool T) :=
  match h.mem with
  | some m => MemPool.re_attach p m
  | none => some p

/-- Embedding of `ShareableMemShare::unfreeze(mut self)`: unconditionally
builds `ModifiableMemShare { pool: self.pool.clone(), mem: self.mem.take() }`.
No reference count is consulted and no error can be reported: the function is
total on `ShareableMemShare` values.  (The consumed `self` is left with
`mem: None`, so its implicit drop returns nothing to the pool.) -/
def ShareableMemShare.unfreeze {T : Type} (s : ShareableMemShare T) :
    ModifiableMemShare T :=
  ⟨s.mem⟩

/-- Embedding of `<ShareableMemShare as PooledMem>::detach(mut self)`: same
shape as the `ModifiableMemShare` impl (and the same mismatch with the trait
signature `fn detach(self) -> T`). -/
def ShareableMemShare.detach {T : Type} (s : ShareableMemShare T) :
    Option (T × ShareableMemShare T) :=
  match s.mem with
  | some m => some (m, ⟨none⟩)
  | none => none

/-- Embedding of `<ShareableMemShare as Deref>::deref`: the `None` arm is
`unreachable!()`, i.e. a panic (`none`). -/
def ShareableMemShare.deref {T : Type} (s : ShareableMemShare T) : Option T :=
  match s.mem with
  | none => none
  | some m => some m

/-- Embedding of `<ShareableMemShare as Drop>::drop`: as for
`ModifiableMemShare`, return the payload to the pool if it is still present. -/
def dropShareable {T : Type} (p : MemPool T) (s : ShareableMemShare T) :
    Option (MemPool T) :=
  match s.mem with
  | some m => MemPool.re_attach p m
  | none => some p

/-- One public operation on the pool state, for reasoning about arbitrary
operation sequences.  `reAttach x` is the release (drop) of a live handle
holding `x` — the only path into `MemPool::re_attach`.  `detached` and
`frozen` record a `detach` or `freeze` of some handle: neither touches the
pool state (they only move the payload out of the handle), so they step the
pool identically. -/
inductive Op (T : Type) where
  | tryPull : Op T
  | tryPullAll : Op T
  | pullWithFallback : T → Op T
  | reAttach : T → Op T
  | detached : Op T
  | frozen : Op T
deriving DecidableEq, Repr

/-- The pool-state effect of one operation (`none` = panic). -/
def stepOp {T : Type} (p : MemPool T) : Op T → Option (MemPool T)
  | Op.tryPull => (MemPool.try_pull p).map (fun r => r.2)
  | Op.tryPullAll => (MemPool.try_pull_from_all_buckets p).map (fun r => r.2)
  | Op.pullWithFallback x =>
      (MemPool.pull_with_fallback p () (fun u => (x, u))).map (fun r => r.2.1)
  | Op.reAttach x => MemPool.re_attach p x
  | Op.detached => some p
  | Op.frozen => some p

/-- Run a sequence of operations from a pool state. -/
def runOps {T : Type} (p : MemPool T) : List (Op T) → Option (MemPool T)
  | [] => some p
  | op :: ops =>
    match stepOp p op with
    | none => none
    | some p2 => runOps p2 ops

/-- Spec-side definition (from the spec's words, for comparison with the
code): linear probing of the bucket indices `(b + inc) % n`,
`(b + inc + 1) % n`, … for the first index satisfying `Q`, giving up after
`fuel` probes (`fuel = n - inc` probes exactly the `n` wrapped indices
starting at `b % n`). -/
def firstProbe (Q : Nat → Bool) (n b inc fuel : Nat) : Option Nat :=
  match fuel with
  | 0 => none
  | fuel + 1 =>
    if Q ((b + inc) % n) then some ((b + inc) % n)
    else firstProbe Q n b (inc + 1) fuel

/-! ## Helper lemmas -/

theorem get?_eq_getD {T : Type} (bs : List (List T)) (j : Nat) (h : j < bs.length) :
    bs.get? j = some (bs.getD j []) := by
  rw [List.get?_eq_getElem?, List.getD_eq_getElem?_getD, List.getElem?_eq_getElem h]
  rfl

theorem firstProbe_eq_none {Q : Nat → Bool} {n b : Nat} :
    ∀ fuel inc, firstProbe Q n b inc fuel = none ↔
      ∀ k, k < fuel → Q ((b + (inc + k)) % n) = false := by
  intro fuel
  induction fuel with
  | zero => intro inc; simp [firstProbe]
  | succ fuel ih =>
    intro inc
    cases hq : Q ((b + inc) % n) with
    | true =>
      have hstep : firstProbe Q n b inc (fuel + 1) = some ((b + inc) % n) := by
        rw [firstProbe, hq]; simp
      rw [hstep]
      constructor
      · intro h; simp at h
      · intro h
        have h0 := h 0 (by omega)
        rw [Nat.add_zero] at h0
        rw [hq] at h0
        cases h0
    | false =>
      have hstep : firstProbe Q n b inc (fuel + 1) = firstProbe Q n b (inc + 1) fuel := by
        rw [firstProbe, hq]; simp
      rw [hstep, ih (inc + 1)]
      constructor
      · intro h k hk
        cases k with
        | zero => rw [Nat.add_zero]; exact hq
        | succ k =>
          have hh := h k (by omega)
          have e : inc + 1 + k = inc + (k + 1) := by omega
          rw [e] at hh
          exact hh
      · intro h k hk
        have hh := h (k + 1) (by omega)
        have e : inc + (k + 1) = inc + 1 + k := by omega
        rw [e] at hh
        exact hh

theorem probe_hits_every_index {n : Nat} (hn : 0 < n) (b j : Nat) (hj : j < n) :
    ∃ k, k < n ∧ (b + k) % n = j := by
  refine ⟨(j + (n - b % n)) % n, Nat.mod_lt _ hn, ?_⟩
  have hr : b % n < n := Nat.mod_lt _ hn
  calc (b + (j + (n - b % n)) % n) % n
      = (b + (j + (n - b % n))) % n := Nat.add_mod_mod _ _ _
    _ = (b % n + (j + (n - b % n))) % n := (Nat.mod_add_mod _ _ _).symm
    _ = (j + n) % n := by congr 1; omega
    _ = j % n := Nat.add_mod_right j n
    _ = j := Nat.mod_eq_of_lt hj

theorem firstProbe_some_spec {Q : Nat → Bool} {n b : Nat} :
    ∀ fuel inc j, firstProbe Q n b inc fuel = some j → Q j = true ∧ (0 < n → j < n) := by
  intro fuel
  induction fuel with
  | zero => intro inc j h; simp [firstProbe] at h
  | succ fuel ih =>
    intro inc j h
    rw [firstProbe] at h
    by_cases hq : Q ((b + inc) % n)
    · simp only [hq, if_true, Option.some.injEq] at h
      subst h
      exact ⟨hq, fun hn => Nat.mod_lt _ hn⟩
    · simp only [hq, if_false] at h
      exact ih (inc + 1) j h


theorem re_attach_loop_step {T : Type} (x : T) (cap n b : Nat) (bs : List (List T))
    (inc fuel : Nat) (bj : List T) (h : bs.get? ((b + inc) % n) = some bj) :
    MemPool.re_attach_loop x cap n b bs inc (fuel + 1) =
      if cap ≤ bj.length then MemPool.re_attach_loop x cap n b bs (inc + 1) fuel
      else some (bs.set ((b + inc) % n) (bj ++ [x])) := by
  rw [MemPool.re_attach_loop, h]

theorem try_pull_all_loop_step {T : Type} (p : MemPool T) (n b inc fuel : Nat)
    (bj : List T) (h : p.buckets.get? ((b + inc) % n) = some bj) :
    MemPool.try_pull_all_loop p n b inc (fuel + 1) =
      match bj.getLast? with
      | none => MemPool.try_pull_all_loop p n b (inc + 1) fuel
      | some m => some (some ⟨some m⟩,
          { p with buckets := p.buckets.set ((b + inc) % n) bj.dropLast }) := by
  cases hLL : bj.getLast? with
  | none =>
    simp only [MemPool.try_pull_all_loop, MemPool.try_pull_from_bucket, h, hLL]
  | some m =>
    simp only [MemPool.try_pull_all_loop, MemPool.try_pull_from_bucket, h, hLL]

theorem re_attach_loop_spec {T : Type} (x : T) (cap b : Nat) (bs : List (List T))
    (hn : 0 < bs.length) :
    ∀ fuel inc, inc + fuel = bs.length + 1 →
      (0 < inc → ¬ (bs.getD (b % bs.length) []).length < cap) →
      MemPool.re_attach_loop x cap bs.length b bs inc fuel =
        some (match firstProbe (fun j => decide ((bs.getD j []).length < cap))
                 bs.length b inc (bs.length - inc) with
              | some j => bs.set j ((bs.getD j []) ++ [x])
              | none => bs) := by
  intro fuel
  induction fuel with
  | zero =>
    intro inc hsum h0
    have he : bs.length - inc = 0 := by omega
    rw [he]
    simp [MemPool.re_attach_loop, firstProbe]
  | succ fuel ih =>
    intro inc hsum h0
    have hjlt : (b + inc) % bs.length < bs.length := Nat.mod_lt _ hn
    have hget := get?_eq_getD bs ((b + inc) % bs.length) hjlt
    rw [re_attach_loop_step x cap bs.length b bs inc fuel _ hget]
    by_cases hcap : cap ≤ (bs.getD ((b + inc) % bs.length) []).length
    · rw [if_pos hcap]
      by_cases hic : inc = bs.length
      · subst hic
        have hf : fuel = 0 := by omega
        subst hf
        rw [Nat.sub_self]
        simp [MemPool.re_attach_loop, firstProbe]
      · have he : bs.length - inc = (bs.length - (inc + 1)) + 1 := by omega
        rw [he, firstProbe]
        have hdec : decide ((bs.getD ((b + inc) % bs.length) []).length < cap) = false :=
          decide_eq_false (Nat.not_lt.mpr hcap)
        rw [hdec]
        simp only [Bool.false_eq_true, if_false]
        refine ih (inc + 1) (by omega) ?_
        intro _
        by_cases hz : inc = 0
        · subst hz
          rw [Nat.add_zero] at hcap
          exact Nat.not_lt.mpr hcap
        · exact h0 (by omega)
    · by_cases hic : inc = bs.length
      · exfalso
        subst hic
        rw [Nat.add_mod_right b bs.length] at hcap
        exact (h0 hn) (Nat.not_le.mp hcap)
      · rw [if_neg hcap]
        have he : bs.length - inc = (bs.length - (inc + 1)) + 1 := by omega
        rw [he, firstProbe]
        have hdec : decide ((bs.getD ((b + inc) % bs.length) []).length < cap) = true :=
          decide_eq_true (Nat.not_le.mp hcap)
        rw [hdec]
        simp

theorem try_pull_all_loop_spec {T : Type} (p : MemPool T) (b : Nat)
    (hn : 0 < p.buckets.length) :
    ∀ fuel inc, inc + fuel = p.buckets.length →
      MemPool.try_pull_all_loop p p.buckets.length b inc fuel =
        match firstProbe (fun j => !(p.buckets.getD j []).isEmpty)
            p.buckets.length b inc fuel with
        | none => some (none, p)
        | some j => some (some ⟨(p.buckets.getD j []).getLast?⟩,
            { p with buckets := p.buckets.set j (p.buckets.getD j []).dropLast }) := by
  intro fuel
  induction fuel with
  | zero =>
    intro inc hsum
    simp [MemPool.try_pull_all_loop, firstProbe]
  | succ fuel ih =>
    intro inc hsum
    have hjlt : (b + inc) % p.buckets.length < p.buckets.length := Nat.mod_lt _ hn
    have hget := get?_eq_getD p.buckets ((b + inc) % p.buckets.length) hjlt
    rw [try_pull_all_loop_step p p.buckets.length b inc fuel _ hget]
    cases hL : (p.buckets.getD ((b + inc) % p.buckets.length) []).getLast? with
    | none =>
      have hempty : (p.buckets.getD ((b + inc) % p.buckets.length) []).isEmpty = true := by
        rw [List.isEmpty_iff]
        exact List.getLast?_eq_none_iff.mp hL
      rw [firstProbe]
      simp only [hempty, Bool.not_true, Bool.false_eq_true, if_false]
      exact ih (inc + 1) (by omega)
    | some m =>
      have hnil : (p.buckets.getD ((b + inc) % p.buckets.length) []) ≠ [] := by
        intro hcon
        rw [hcon] at hL
        cases hL
      have hne : (p.buckets.getD ((b + inc) % p.buckets.length) []).isEmpty = false :=
        Bool.eq_false_iff.mpr (fun hcon => hnil (List.isEmpty_iff.mp hcon))
      rw [firstProbe]
      simp only [hne, Bool.not_false, if_true]
      rw [hL]

theorem firstProbe_zero_none_iff {Q : Nat → Bool} {n b : Nat} (hn : 0 < n) :
    firstProbe Q n b 0 n = none ↔ ∀ j, j < n → Q j = false := by
  rw [firstProbe_eq_none]
  constructor
  · intro h j hj
    obtain ⟨k, hk, hkj⟩ := probe_hits_every_index hn b j hj
    have hh := h k hk
    rw [Nat.zero_add, hkj] at hh
    exact hh
  · intro h k hk
    exact h _ (Nat.mod_lt _ hn)

theorem try_pull_all_loop_spec2 {T : Type} (p : MemPool T) (bs : List (List T))
    (n b : Nat) (hbs : p.buckets = bs) (hlen : n = bs.length) (hn : 0 < bs.length) :
    ∀ fuel inc, inc + fuel = n →
      MemPool.try_pull_all_loop p n b inc fuel =
        match firstProbe (fun j => !(bs.getD j []).isEmpty) n b inc fuel with
        | none => some (none, p)
        | some j => some (some ⟨(bs.getD j []).getLast?⟩,
            { p with buckets := bs.set j (bs.getD j []).dropLast }) := by
  subst hbs
  subst hlen
  exact try_pull_all_loop_spec p b hn

theorem try_pull_from_bucket_shape {T : Type} (p : MemPool T) (i : Nat)
    (r : Option (ModifiableMemShare T)) (p2 : MemPool T)
    (h : MemPool.try_pull_from_bucket p i = some (r, p2)) :
    p2.pull_ctr = p.pull_ctr ∧ p2.insert_ctr = p.insert_ctr ∧ p2.capacity = p.capacity ∧
      ((r = none ∧ p2 = p) ∨
       ∃ bj m, p.buckets.get? i = some bj ∧ bj.getLast? = some m ∧ r = some ⟨some m⟩ ∧
         p2.buckets = p.buckets.set i bj.dropLast ∧ m ∈ p.buckets.flatten) := by
  rw [MemPool.try_pull_from_bucket] at h
  cases hg : p.buckets.get? i with
  | none => rw [hg] at h; cases h
  | some bj =>
    simp only [hg] at h
    cases hL : bj.getLast? with
    | none =>
      simp only [hL, Option.some.injEq, Prod.mk.injEq] at h
      obtain ⟨hr, hp⟩ := h
      subst hr hp
      exact ⟨rfl, rfl, rfl, Or.inl ⟨rfl, rfl⟩⟩
    | some m =>
      simp only [hL, Option.some.injEq, Prod.mk.injEq] at h
      obtain ⟨hr, hp⟩ := h
      subst hr hp
      have hmem : m ∈ p.buckets.flatten := by
        rw [List.mem_flatten]
        exact ⟨bj, List.get?_mem hg, List.mem_of_mem_getLast? (by rw [hL]; rfl)⟩
      exact ⟨rfl, rfl, rfl, Or.inr ⟨bj, m, rfl, hL, rfl, rfl, hmem⟩⟩

theorem try_pull_change {T : Type} (p : MemPool T) (r : Option (ModifiableMemShare T))
    (p2 : MemPool T) (h : MemPool.try_pull p = some (r, p2)) :
    p2.pull_ctr = (p.pull_ctr + 1) % USIZE ∧ p2.insert_ctr = p.insert_ctr ∧
      p2.capacity = p.capacity ∧
      (p2.buckets = p.buckets ∨
       ∃ i bj, p.buckets.get? i = some bj ∧ p2.buckets = p.buckets.set i bj.dropLast) := by
  rw [MemPool.try_pull] at h
  by_cases hn : p.buckets.length = 0
  · rw [if_pos hn] at h; cases h
  · rw [if_neg hn] at h
    obtain ⟨h1, h2, h3, hsh⟩ := try_pull_from_bucket_shape _ _ _ _ h
    refine ⟨by rw [h1], by rw [h2], by rw [h3], ?_⟩
    rcases hsh with ⟨hr, hp⟩ | ⟨bj, m, hg, hL, hr, hb, hmem⟩
    · subst hp; exact Or.inl rfl
    · exact Or.inr ⟨p.pull_ctr % p.buckets.length, bj, hg, hb⟩

theorem try_pull_all_change {T : Type} (p : MemPool T) (r : Option (ModifiableMemShare T))
    (p2 : MemPool T) (h : MemPool.try_pull_from_all_buckets p = some (r, p2)) :
    p2.pull_ctr = (p.pull_ctr + 1) % USIZE ∧ p2.insert_ctr = p.insert_ctr ∧
      p2.capacity = p.capacity ∧
      (p2.buckets = p.buckets ∨
       ∃ i bj, p.buckets.get? i = some bj ∧ p2.buckets = p.buckets.set i bj.dropLast) := by
  rw [MemPool.try_pull_from_all_buckets] at h
  by_cases hn : p.buckets.length = 0
  · rw [if_pos hn] at h; cases h
  · rw [if_neg hn] at h
    have hpos : 0 < p.buckets.length := Nat.pos_of_ne_zero hn
    rw [try_pull_all_loop_spec2 { p with pull_ctr := (p.pull_ctr + 1) % USIZE }
        p.buckets p.buckets.length (p.pull_ctr % p.buckets.length) rfl rfl hpos
        p.buckets.length 0 (by omega)] at h
    cases hfp : firstProbe
        (fun j => !(p.buckets.getD j []).isEmpty)
        p.buckets.length (p.pull_ctr % p.buckets.length) 0 p.buckets.length with
    | none =>
      rw [hfp] at h
      simp only [Option.some.injEq, Prod.mk.injEq] at h
      obtain ⟨hr, hp⟩ := h
      subst hp
      exact ⟨rfl, rfl, rfl, Or.inl rfl⟩
    | some j =>
      rw [hfp] at h
      simp only [Option.some.injEq, Prod.mk.injEq] at h
      obtain ⟨hr, hp⟩ := h
      subst hp
      have hjlt : j < p.buckets.length :=
        (firstProbe_some_spec _ _ j hfp).2 hpos
      exact ⟨rfl, rfl, rfl,
        Or.inr ⟨j, p.buckets.getD j [], get?_eq_getD _ _ hjlt, rfl⟩⟩

theorem re_attach_change {T : Type} (p : MemPool T) (x : T) (p2 : MemPool T)
    (h : MemPool.re_attach p x = some p2) :
    p2.pull_ctr = p.pull_ctr ∧ p2.insert_ctr = (p.insert_ctr + 1) % USIZE ∧
      p2.capacity = p.capacity ∧
      (p2.buckets = p.buckets ∨
       ∃ i bj, p.buckets.get? i = some bj ∧ bj.length < p.capacity ∧
         p2.buckets = p.buckets.set i (bj ++ [x])) := by
  rw [MemPool.re_attach] at h
  by_cases hn : p.buckets.length = 0
  · rw [if_pos hn] at h; cases h
  · rw [if_neg hn] at h
    have hpos : 0 < p.buckets.length := Nat.pos_of_ne_zero hn
    rw [re_attach_loop_spec x p.capacity (p.insert_ctr % p.buckets.length) p.buckets hpos
        (p.buckets.length + 1) 0 (by omega) (by omega)] at h
    rw [Nat.sub_zero] at h
    cases hfp : firstProbe
        (fun j => decide ((p.buckets.getD j []).length < p.capacity))
        p.buckets.length (p.insert_ctr % p.buckets.length) 0 p.buckets.length with
    | none =>
      rw [hfp] at h
      simp only [Option.map_some', Option.some.injEq] at h
      subst h
      exact ⟨rfl, rfl, rfl, Or.inl rfl⟩
    | some j =>
      rw [hfp] at h
      simp only [Option.map_some', Option.some.injEq] at h
      subst h
      obtain ⟨hq, hlt⟩ := firstProbe_some_spec _ _ j hfp
      have hjlt : j < p.buckets.length := hlt hpos
      refine ⟨rfl, rfl, rfl,
        Or.inr ⟨j, p.buckets.getD j [], get?_eq_getD _ _ hjlt, ?_, rfl⟩⟩
      exact of_decide_eq_true hq

theorem pull_with_fallback_change {T S : Type} (p : MemPool T) (σ : S)
    (fb : S → T × S) (h0 : ModifiableMemShare T) (p2 : MemPool T) (σ2 : S)
    (h : MemPool.pull_with_fallback p σ fb = some (h0, p2, σ2)) :
    ∃ r, MemPool.try_pull_from_all_buckets p = some (r, p2) := by
  rw [MemPool.pull_with_fallback] at h
  cases ha : MemPool.try_pull_from_all_buckets p with
  | none => rw [ha] at h; cases h
  | some rp =>
    obtain ⟨r, q⟩ := rp
    cases r with
    | none =>
      simp only [ha, Option.some.injEq, Prod.mk.injEq] at h
      exact ⟨none, by rw [h.2.1]⟩
    | some hh =>
      simp only [ha, Option.some.injEq, Prod.mk.injEq] at h
      exact ⟨some hh, by rw [h.2.1]⟩

theorem stepOp_shape {T : Type} (p p2 : MemPool T) (op : Op T)
    (h : stepOp p op = some p2) :
    p2.capacity = p.capacity ∧
      (p2.buckets = p.buckets ∨
       (∃ i bj, p.buckets.get? i = some bj ∧ p2.buckets = p.buckets.set i bj.dropLast) ∨
       (∃ i bj x, op = Op.reAttach x ∧ p.buckets.get? i = some bj ∧
          bj.length < p.capacity ∧ p2.buckets = p.buckets.set i (bj ++ [x]))) := by
  cases op with
  | tryPull =>
    rw [stepOp] at h
    cases hr : MemPool.try_pull p with
    | none => rw [hr] at h; cases h
    | some rp =>
      rw [hr] at h
      simp only [Option.map_some', Option.some.injEq] at h
      subst h
      obtain ⟨h1, h2, h3, hsh⟩ := try_pull_change p rp.1 rp.2 (by rw [hr])
      rcases hsh with hb | ⟨i, bj, hg, hb⟩
      · exact ⟨h3, Or.inl hb⟩
      · exact ⟨h3, Or.inr (Or.inl ⟨i, bj, hg, hb⟩)⟩
  | tryPullAll =>
    rw [stepOp] at h
    cases hr : MemPool.try_pull_from_all_buckets p with
    | none => rw [hr] at h; cases h
    | some rp =>
      rw [hr] at h
      simp only [Option.map_some', Option.some.injEq] at h
      subst h
      obtain ⟨h1, h2, h3, hsh⟩ := try_pull_all_change p rp.1 rp.2 (by rw [hr])
      rcases hsh with hb | ⟨i, bj, hg, hb⟩
      · exact ⟨h3, Or.inl hb⟩
      · exact ⟨h3, Or.inr (Or.inl ⟨i, bj, hg, hb⟩)⟩
  | pullWithFallback x =>
    rw [stepOp] at h
    cases hr : MemPool.pull_with_fallback p () (fun u => (x, u)) with
    | none => rw [hr] at h; cases h
    | some rp =>
      rw [hr] at h
      simp only [Option.map_some', Option.some.injEq] at h
      subst h
      obtain ⟨r, hall⟩ :=
        pull_with_fallback_change p () (fun u => (x, u)) rp.1 rp.2.1 rp.2.2 (by rw [hr])
      obtain ⟨h1, h2, h3, hsh⟩ := try_pull_all_change p r rp.2.1 hall
      rcases hsh with hb | ⟨i, bj, hg, hb⟩
      · exact ⟨h3, Or.inl hb⟩
      · exact ⟨h3, Or.inr (Or.inl ⟨i, bj, hg, hb⟩)⟩
  | reAttach x =>
    rw [stepOp] at h
    obtain ⟨h1, h2, h3, hsh⟩ := re_attach_change p x p2 h
    rcases hsh with hb | ⟨i, bj, hg, hlt, hb⟩
    · exact ⟨h3, Or.inl hb⟩
    · exact ⟨h3, Or.inr (Or.inr ⟨i, bj, x, rfl, hg, hlt, hb⟩)⟩
  | detached =>
    rw [stepOp] at h
    cases h
    exact ⟨rfl, Or.inl rfl⟩
  | frozen =>
    rw [stepOp] at h
    cases h
    exact ⟨rfl, Or.inl rfl⟩

theorem stepOp_preserves_cap {T : Type} {c : Nat} {p p2 : MemPool T} {op : Op T}
    (hc : p.capacity = c) (hinv : ∀ bj ∈ p.buckets, bj.length ≤ c)
    (h : stepOp p op = some p2) :
    p2.capacity = c ∧ ∀ bj ∈ p2.buckets, bj.length ≤ c := by
  obtain ⟨h3, hsh⟩ := stepOp_shape p p2 op h
  refine ⟨by rw [h3, hc], ?_⟩
  rcases hsh with hb | ⟨i, bj, hg, hb⟩ | ⟨i, bj, x, hop, hg, hlt, hb⟩
  · rw [hb]; exact hinv
  · rw [hb]
    intro bk hbk
    rcases List.mem_or_eq_of_mem_set hbk with hbk | hbk
    · exact hinv bk hbk
    · subst hbk
      have := hinv bj (List.get?_mem hg)
      rw [List.length_dropLast]
      omega
  · rw [hb]
    intro bk hbk
    rcases List.mem_or_eq_of_mem_set hbk with hbk | hbk
    · exact hinv bk hbk
    · subst hbk
      rw [hc] at hlt
      simp only [List.length_append, List.length_cons, List.length_nil]
      omega

theorem runOps_preserves_cap {T : Type} {c : Nat} :
    ∀ (ops : List (Op T)) (p p2 : MemPool T), p.capacity = c →
      (∀ bj ∈ p.buckets, bj.length ≤ c) → runOps p ops = some p2 →
      p2.capacity = c ∧ ∀ bj ∈ p2.buckets, bj.length ≤ c := by
  intro ops
  induction ops with
  | nil =>
    intro p p2 hc hinv h
    rw [runOps] at h
    cases h
    exact ⟨hc, hinv⟩
  | cons op ops ih =>
    intro p p2 hc hinv h
    rw [runOps] at h
    cases hs : stepOp p op with
    | none => rw [hs] at h; cases h
    | some q =>
      rw [hs] at h
      obtain ⟨hc2, hinv2⟩ := stepOp_preserves_cap hc hinv hs
      exact ih q p2 hc2 hinv2 h

theorem stepOp_no_new_item {T : Type} {p p2 : MemPool T} {op : Op T} {x : T}
    (hx : x ∉ p.buckets.flatten) (hop : op ≠ Op.reAttach x)
    (h : stepOp p op = some p2) : x ∉ p2.buckets.flatten := by
  obtain ⟨h3, hsh⟩ := stepOp_shape p p2 op h
  rcases hsh with hb | ⟨i, bj, hg, hb⟩ | ⟨i, bj, y, hopy, hg, hlt, hb⟩
  · rw [hb]; exact hx
  · rw [hb]
    intro hcon
    rw [List.mem_flatten] at hcon
    obtain ⟨l, hl, hxl⟩ := hcon
    rcases List.mem_or_eq_of_mem_set hl with hl | hl
    · exact hx (List.mem_flatten.mpr ⟨l, hl, hxl⟩)
    · subst hl
      exact hx (List.mem_flatten.mpr
        ⟨bj, List.get?_mem hg, (List.dropLast_sublist bj).subset hxl⟩)
  · rw [hb]
    have hxy : y ≠ x := by
      intro hcon
      subst hcon
      exact hop hopy
    intro hcon
    rw [List.mem_flatten] at hcon
    obtain ⟨l, hl, hxl⟩ := hcon
    rcases List.mem_or_eq_of_mem_set hl with hl | hl
    · exact hx (List.mem_flatten.mpr ⟨l, hl, hxl⟩)
    · subst hl
      rcases List.mem_append.mp hxl with hxl | hxl
      · exact hx (List.mem_flatten.mpr ⟨bj, List.get?_mem hg, hxl⟩)
      · rw [List.mem_singleton] at hxl
        exact hxy hxl.symm

theorem runOps_no_new_item {T : Type} {x : T} :
    ∀ (ops : List (Op T)) (p p2 : MemPool T), x ∉ p.buckets.flatten →
      Op.reAttach x ∉ ops → runOps p ops = some p2 → x ∉ p2.buckets.flatten := by
  intro ops
  induction ops with
  | nil =>
    intro p p2 hx hops h
    rw [runOps] at h
    cases h
    exact hx
  | cons op ops ih =>
    intro p p2 hx hops h
    rw [runOps] at h
    cases hs : stepOp p op with
    | none => rw [hs] at h; cases h
    | some q =>
      rw [hs] at h
      have hop : op ≠ Op.reAttach x := by
        intro hcon
        exact hops (by rw [hcon]; exact List.mem_cons_self _ _)
      have hops2 : Op.reAttach x ∉ ops := fun hcon => hops (List.mem_cons_of_mem _ hcon)
      exact ih q p2 (stepOp_no_new_item hx hop hs) hops2 h

theorem try_pull_result_mem {T : Type} (p : MemPool T) (r : ModifiableMemShare T)
    (p2 : MemPool T) (m : T) (h : MemPool.try_pull p = some (some r, p2))
    (hm : r.mem = some m) : m ∈ p.buckets.flatten := by
  rw [MemPool.try_pull] at h
  by_cases hn : p.buckets.length = 0
  · rw [if_pos hn] at h; cases h
  · rw [if_neg hn] at h
    obtain ⟨h1, h2, h3, hsh⟩ := try_pull_from_bucket_shape _ _ _ _ h
    rcases hsh with ⟨hr, hp⟩ | ⟨bj, mm, hg, hL, hr, hb, hmem⟩
    · cases hr
    · have : r = ⟨some mm⟩ := by
        injection hr with hr
      subst this
      have : mm = m := by
        injection hm
      subst this
      exact hmem

/-! ## Claim theorems -/

/-- C1: for every pool created by `new(shardCount, capacityPerShard, itemFactory)`
and every sequence of pull, return (`re_attach`), detach, freeze and release
operations, every shard's length is at most `capacityPerShard` at all times:
`new` fills each shard to exactly `capacityPerShard`, pulls only remove items,
and the return path pushes only into a shard whose length is strictly below
capacity.  (Any state reached by `runOps` is the state after some prefix, so
this covers all intermediate states.) -/
theorem capacity_invariant_holds {T : Type} (n c : Nat) (f : Nat → T)
    (ops : List (Op T)) (p2 : MemPool T)
    (h : runOps (MemPool.new n c f) ops = some p2) :
    (∀ bj ∈ (MemPool.new n c f).buckets, bj.length = c) ∧
    p2.capacity = c ∧ ∀ bj ∈ p2.buckets, bj.length ≤ c := by
  have hnew : ∀ bj ∈ (MemPool.new n c f).buckets, bj.length = c := by
    intro bj hbj
    rw [MemPool.new] at hbj
    simp only [List.mem_map] at hbj
    obtain ⟨i, hi, hbj⟩ := hbj
    rw [← hbj, List.length_map, List.length_range]
  exact ⟨hnew,
    runOps_preserves_cap ops _ p2 rfl (fun bj hbj => le_of_eq (hnew bj hbj)) h⟩

/-- Witness for C1 at a concrete input: a two-shard, capacity-one pool after
one pull. -/
theorem capacity_invariant_holds_witness :
    (∀ bj ∈ (MemPool.new 2 1 (fun i => i)).buckets, bj.length = 1) ∧
    (⟨[[], [1]], 1, 0, 1⟩ : MemPool Nat).capacity = 1 ∧
    ∀ bj ∈ (⟨[[], [1]], 1, 0, 1⟩ : MemPool Nat).buckets, bj.length ≤ 1 :=
  capacity_invariant_holds 2 1 (fun i => i) [Op.tryPull] ⟨[[], [1]], 1, 0, 1⟩
    (by decide)

/-- C3 counterexample: `ShareableMemShare::unfreeze` consults no reference
count and has no error channel.  Freezing an Exclusive Handle holding `7` and
cloning the resulting `Arc` gives a Shared Handle with strong count 2 (an
outstanding clone exists); `unfreeze` applied to the shared value nevertheless
succeeds, returning an Exclusive Handle holding `7` — it does not report any
ownership error. -/
theorem unfreeze_with_outstanding_clone_succeeds :
    (ArcCell.clone (ModifiableMemShare.freeze (⟨some 7⟩ : ModifiableMemShare Nat)).1).strong
      = 2 ∧
    ShareableMemShare.unfreeze
        (ArcCell.clone (ModifiableMemShare.freeze (⟨some 7⟩ : ModifiableMemShare Nat)).1).value
      = ⟨some 7⟩ := by
  decide

/-- C3 amended: `unfreeze` performs no ownership check and reports no error —
it is a total function that always succeeds, producing an Exclusive Handle
holding the same payload; the consumed Shared Handle is left empty, so its
drop returns nothing to the pool.  (Unique ownership is enforced only outside
this crate by Rust's move semantics: `freeze` hands out
`Arc<ShareableMemShare<T>>` and `unfreeze` consumes an owned value, which a
caller can only extract from the `Arc` while no clone exists.) -/
theorem unfreeze_always_succeeds {T : Type} (s : ShareableMemShare T)
    (p : MemPool T) :
    ShareableMemShare.unfreeze s = ⟨s.mem⟩ ∧
    dropShareable p (⟨none⟩ : ShareableMemShare T) = some p :=
  ⟨rfl, rfl⟩

/-- C4: `detach` consumes the Exclusive Handle and hands the raw item to the
caller (per the impl, paired with a clone of the pool reference — see the
doc comment on `ModifiableMemShare.detach`); the consumed handle is left
empty so its release performs no return; and as long as the item is neither
in the pool nor re-introduced by a release, no sequence of operations brings
it back into any shard, so no subsequent `try_pull` can return it. -/
theorem detach_returns_item_with_finality {T : Type} (p : MemPool T)
    (hdl : ModifiableMemShare T) (x : T) (hmem : hdl.mem = some x) :
    ModifiableMemShare.detach hdl = some (x, ⟨none⟩) ∧
    dropModifiable p (⟨none⟩ : ModifiableMemShare T) = some p ∧
    ∀ (ops : List (Op T)) (p2 : MemPool T), x ∉ p.buckets.flatten →
      Op.reAttach x ∉ ops → runOps p ops = some p2 →
      x ∉ p2.buckets.flatten ∧
      ∀ (r : ModifiableMemShare T) (p3 : MemPool T) (m : T),
        MemPool.try_pull p2 = some (some r, p3) → r.mem = some m → m ≠ x := by
  refine ⟨by rw [ModifiableMemShare.detach, hmem], rfl, ?_⟩
  intro ops p2 hx hops hrun
  have hfin := runOps_no_new_item ops p p2 hx hops hrun
  refine ⟨hfin, ?_⟩
  intro r p3 m hpull hm hcon
  subst hcon
  exact hfin (try_pull_result_mem p2 r p3 m hpull hm)

/-- Witness for C4 at a concrete input: detaching `7` from a one-shard pool
that no longer contains it; after a pull and a release of a different item,
`7` is still absent from the pool. -/
theorem detach_returns_item_with_finality_witness :
    ModifiableMemShare.detach (⟨some 7⟩ : ModifiableMemShare Nat) = some (7, ⟨none⟩) ∧
    dropModifiable (⟨[[1]], 0, 0, 1⟩ : MemPool Nat) (⟨none⟩ : ModifiableMemShare Nat)
      = some ⟨[[1]], 0, 0, 1⟩ ∧
    (7 : Nat) ∉ (⟨[[1]], 0, 0, 1⟩ : MemPool Nat).buckets.flatten ∧
    Op.reAttach 7 ∉ [Op.tryPull (T := Nat), Op.reAttach 1] ∧
    runOps (⟨[[1]], 0, 0, 1⟩ : MemPool Nat) [Op.tryPull, Op.reAttach 1]
      = some ⟨[[1]], 1, 1, 1⟩ ∧
    (7 : Nat) ∉ (⟨[[1]], 1, 1, 1⟩ : MemPool Nat).buckets.flatten := by
  have h := detach_returns_item_with_finality (⟨[[1]], 0, 0, 1⟩ : MemPool Nat)
    ⟨some 7⟩ 7 rfl
  refine ⟨h.1, h.2.1, by decide, by decide, by decide, ?_⟩
  exact (h.2.2 [Op.tryPull, Op.reAttach 1] ⟨[[1]], 1, 1, 1⟩ (by decide) (by decide)
    (by decide)).1

/-- C5: on release (`Drop`) of an Exclusive Handle that still holds its item,
the item is unconditionally handed to `re_attach`; a handle consumed by
`detach` or `freeze` is left empty, and releasing an empty handle does
nothing — so the item reaches `re_attach` at most once per lease. -/
theorem release_hands_item_to_re_attach_once {T : Type} (p : MemPool T)
    (hdl : ModifiableMemShare T) (x : T) :
    (hdl.mem = some x → dropModifiable p hdl = MemPool.re_attach p x) ∧
    (hdl.mem = none → dropModifiable p hdl = some p) ∧
    (ModifiableMemShare.freeze hdl).2.mem = none ∧
    (∀ m r, ModifiableMemShare.detach hdl = some (m, r) → r.mem = none) ∧
    dropModifiable p (ModifiableMemShare.freeze hdl).2 = some p := by
  refine ⟨?_, ?_, rfl, ?_, rfl⟩
  · intro hm
    rw [dropModifiable, hm]
  · intro hm
    rw [dropModifiable, hm]
  · intro m r hdet
    rw [ModifiableMemShare.detach] at hdet
    cases hm : hdl.mem with
    | none => rw [hm] at hdet; cases hdet
    | some mm =>
      rw [hm] at hdet
      simp only [Option.some.injEq, Prod.mk.injEq] at hdet
      rw [← hdet.2]

/-- Witness for C5 at a concrete input. -/
theorem release_hands_item_to_re_attach_once_witness :
    dropModifiable (⟨[[]], 0, 0, 1⟩ : MemPool Nat) ⟨some 4⟩
      = MemPool.re_attach (⟨[[]], 0, 0, 1⟩ : MemPool Nat) 4 ∧
    dropModifiable (⟨[[]], 0, 0, 1⟩ : MemPool Nat)
        (ModifiableMemShare.freeze (⟨some 4⟩ : ModifiableMemShare Nat)).2
      = some ⟨[[]], 0, 0, 1⟩ :=
  ⟨(release_hands_item_to_re_attach_once (⟨[[]], 0, 0, 1⟩ : MemPool Nat) ⟨some 4⟩ 4).1 rfl,
   (release_hands_item_to_re_attach_once (⟨[[]], 0, 0, 1⟩ : MemPool Nat) ⟨some 4⟩ 4).2.2.2.2⟩

theorem getD_lt {T : Type} (bs : List (List T)) (i : Nat) (h : i < bs.length) :
    bs.getD i [] = bs[i] := by
  rw [List.getD_eq_getElem?_getD, List.getElem?_eq_getElem h]
  rfl

theorem try_pull_from_bucket_spec {T : Type} (p : MemPool T) (i : Nat) (bj : List T)
    (hget : p.buckets.get? i = some bj) :
    MemPool.try_pull_from_bucket p i =
      match bj.getLast? with
      | none => some (none, p)
      | some m => some (some ⟨some m⟩,
          { p with buckets := p.buckets.set i bj.dropLast }) := by
  cases hL : bj.getLast? with
  | none => simp only [MemPool.try_pull_from_bucket, hget, hL]
  | some m => simp only [MemPool.try_pull_from_bucket, hget, hL]

/-- C6: `try_pull` selects the single shard `pull_ctr % shardCount` (the old
counter value; the counter is then stored incremented), pops from exactly that
shard, returns a handle holding the popped item when that shard is non-empty
and `None` when it is empty, and leaves every other shard unchanged. -/
theorem try_pull_pops_only_selected_shard {T : Type} (p : MemPool T)
    (hn : 0 < p.buckets.length) :
    ∃ r p2, MemPool.try_pull p = some (r, p2) ∧
      p2.pull_ctr = (p.pull_ctr + 1) % USIZE ∧
      p2.insert_ctr = p.insert_ctr ∧
      p2.capacity = p.capacity ∧
      p2.buckets.length = p.buckets.length ∧
      (∀ j, j ≠ p.pull_ctr % p.buckets.length →
        p2.buckets.get? j = p.buckets.get? j) ∧
      ((p.buckets.getD (p.pull_ctr % p.buckets.length) []).getLast? = none →
        r = none ∧ p2.buckets = p.buckets) ∧
      (∀ m, (p.buckets.getD (p.pull_ctr % p.buckets.length) []).getLast? = some m →
        r = some ⟨some m⟩ ∧
        p2.buckets = p.buckets.set (p.pull_ctr % p.buckets.length)
          (p.buckets.getD (p.pull_ctr % p.buckets.length) []).dropLast) := by
  have hne : p.buckets.length ≠ 0 := by omega
  have hilt : p.pull_ctr % p.buckets.length < p.buckets.length := Nat.mod_lt _ hn
  have hget := get?_eq_getD p.buckets (p.pull_ctr % p.buckets.length) hilt
  have hget2 : ({ p with pull_ctr := (p.pull_ctr + 1) % USIZE } : MemPool T).buckets.get?
      (p.pull_ctr % p.buckets.length)
      = some (p.buckets.getD (p.pull_ctr % p.buckets.length) []) := hget
  have hunfold : MemPool.try_pull p
      = MemPool.try_pull_from_bucket { p with pull_ctr := (p.pull_ctr + 1) % USIZE }
          (p.pull_ctr % p.buckets.length) := by
    rw [MemPool.try_pull, if_neg hne]
  rw [try_pull_from_bucket_spec _ _ _ hget2] at hunfold
  cases hL : (p.buckets.getD (p.pull_ctr % p.buckets.length) []).getLast? with
  | none =>
    rw [hL] at hunfold
    refine ⟨none, ⟨p.buckets, (p.pull_ctr + 1) % USIZE, p.insert_ctr, p.capacity⟩,
      ?_, rfl, rfl, rfl, rfl, fun j hj => rfl, fun _ => ⟨rfl, rfl⟩, ?_⟩
    · rw [hunfold]
    · intro m hm
      cases hm
  | some m =>
    rw [hL] at hunfold
    refine ⟨some ⟨some m⟩,
      ⟨p.buckets.set (p.pull_ctr % p.buckets.length)
          (p.buckets.getD (p.pull_ctr % p.buckets.length) []).dropLast,
        (p.pull_ctr + 1) % USIZE, p.insert_ctr, p.capacity⟩,
      ?_, rfl, rfl, rfl, List.length_set _ _ _, ?_, ?_, ?_⟩
    · rw [hunfold]
    · intro j hj
      rw [List.get?_eq_getElem?, List.get?_eq_getElem?]
      exact List.getElem?_set_ne (Ne.symm hj)
    · intro hcon
      cases hcon
    · intro m2 hm2
      injection hm2 with hm2
      subst hm2
      exact ⟨rfl, rfl⟩

/-- Witness for C6 at a concrete input: a one-shard pool holding `[3]`. -/
theorem try_pull_pops_only_selected_shard_witness :
    ∃ r p2, MemPool.try_pull (⟨[[3]], 0, 0, 1⟩ : MemPool Nat) = some (r, p2) ∧
      p2.pull_ctr = (0 + 1) % USIZE ∧
      p2.insert_ctr = 0 ∧
      p2.capacity = 1 ∧
      p2.buckets.length = 1 ∧
      (∀ j, j ≠ 0 → p2.buckets.get? j = ([[3]] : List (List Nat)).get? j) ∧
      (([3] : List Nat).getLast? = none → r = none ∧ p2.buckets = [[3]]) ∧
      (∀ m, ([3] : List Nat).getLast? = some m → r = some ⟨some m⟩ ∧
        p2.buckets = ([[3]] : List (List Nat)).set 0 ([3] : List Nat).dropLast) :=
  try_pull_pops_only_selected_shard (⟨[[3]], 0, 0, 1⟩ : MemPool Nat) (by decide)

/-- C2: `re_attach` starts at shard `insert_ctr % shardCount` (the old counter
value; the counter is then stored incremented) and probes shards linearly with
wrap-around; the first probed shard whose length is below capacity receives
the item (as a push at the end) and probing stops; if every shard is at
capacity the item is discarded: the operation returns normally with the shard
vector — in particular every shard length — unchanged.  `firstProbe` is the
spec-side description of the linear probe; its `fuel = shardCount` probes are
exactly the `shardCount` wrapped indices starting at the chosen shard.  (The
source loop runs up to `shardCount + 1` iterations because its exit test is
`bucket_inc > bucket_len`, but the final extra iteration re-probes the
starting shard, which was already found full, so exactly the first
`shardCount` probes determine the outcome, as proved here.) -/
theorem re_attach_pushes_first_shard_with_room {T : Type} (p : MemPool T) (x : T)
    (hn : 0 < p.buckets.length) :
    ∃ p2, MemPool.re_attach p x = some p2 ∧
      p2.insert_ctr = (p.insert_ctr + 1) % USIZE ∧
      p2.pull_ctr = p.pull_ctr ∧
      p2.capacity = p.capacity ∧
      (match firstProbe (fun j => decide ((p.buckets.getD j []).length < p.capacity))
          p.buckets.length (p.insert_ctr % p.buckets.length) 0 p.buckets.length with
       | some j => p2.buckets = p.buckets.set j ((p.buckets.getD j []) ++ [x])
       | none => p2.buckets = p.buckets) ∧
      ((∀ bj ∈ p.buckets, p.capacity ≤ bj.length) → p2.buckets = p.buckets) := by
  have hne : p.buckets.length ≠ 0 := by omega
  have heq : MemPool.re_attach p x
      = (MemPool.re_attach_loop x p.capacity p.buckets.length
            (p.insert_ctr % p.buckets.length) p.buckets 0 (p.buckets.length + 1)).map
          (fun bs =>
            { p with buckets := bs, insert_ctr := (p.insert_ctr + 1) % USIZE }) := by
    rw [MemPool.re_attach, if_neg hne]
  rw [re_attach_loop_spec x p.capacity (p.insert_ctr % p.buckets.length) p.buckets hn
      (p.buckets.length + 1) 0 (by omega) (fun hcon => absurd hcon (by omega))] at heq
  rw [Nat.sub_zero] at heq
  cases hfp : firstProbe
      (fun j => decide ((p.buckets.getD j []).length < p.capacity))
      p.buckets.length (p.insert_ctr % p.buckets.length) 0 p.buckets.length with
  | none =>
    rw [hfp] at heq
    refine ⟨⟨p.buckets, p.pull_ctr, (p.insert_ctr + 1) % USIZE, p.capacity⟩,
      ?_, rfl, rfl, rfl, ?_, fun _ => rfl⟩
    · rw [heq]; rfl
    · exact rfl
  | some j =>
    rw [hfp] at heq
    refine ⟨⟨p.buckets.set j ((p.buckets.getD j []) ++ [x]), p.pull_ctr,
        (p.insert_ctr + 1) % USIZE, p.capacity⟩,
      ?_, rfl, rfl, rfl, ?_, ?_⟩
    · rw [heq]; rfl
    · exact rfl
    · intro hall
      exfalso
      have hnone : firstProbe
          (fun j => decide ((p.buckets.getD j []).length < p.capacity))
          p.buckets.length (p.insert_ctr % p.buckets.length) 0 p.buckets.length = none := by
        rw [firstProbe_zero_none_iff hn]
        intro j2 hj2
        apply decide_eq_false
        apply Nat.not_lt.mpr
        rw [getD_lt p.buckets j2 hj2]
        exact hall _ (List.getElem_mem hj2)
      rw [hnone] at hfp
      cases hfp

/-- Witness for C2 at a concrete input: a two-shard pool with shard 0 full and
shard 1 empty; returning `9` probes shard 0, finds it full, and pushes into
shard 1. -/
theorem re_attach_pushes_first_shard_with_room_witness :
    ∃ p2, MemPool.re_attach (⟨[[0], []], 0, 0, 1⟩ : MemPool Nat) 9 = some p2 ∧
      p2.insert_ctr = (0 + 1) % USIZE ∧
      p2.pull_ctr = 0 ∧
      p2.capacity = 1 ∧
      (match firstProbe
          (fun j => decide ((([[0], []] : List (List Nat)).getD j []).length < 1)) 2 0 0 2 with
       | some j => p2.buckets =
           ([[0], []] : List (List Nat)).set j (([[0], []] : List (List Nat)).getD j [] ++ [9])
       | none => p2.buckets = [[0], []]) ∧
      ((∀ bj ∈ ([[0], []] : List (List Nat)), 1 ≤ bj.length) → p2.buckets = [[0], []]) :=
  re_attach_pushes_first_shard_with_room (⟨[[0], []], 0, 0, 1⟩ : MemPool Nat) 9 (by decide)

theorem try_pull_total {T : Type} (p : MemPool T) (hn : 0 < p.buckets.length) :
    ∃ r p2, MemPool.try_pull p = some (r, p2) := by
  have hne : p.buckets.length ≠ 0 := by omega
  have hilt : p.pull_ctr % p.buckets.length < p.buckets.length := Nat.mod_lt _ hn
  have hget2 : ({ p with pull_ctr := (p.pull_ctr + 1) % USIZE } : MemPool T).buckets.get?
      (p.pull_ctr % p.buckets.length)
      = some (p.buckets.getD (p.pull_ctr % p.buckets.length) []) :=
    get?_eq_getD p.buckets (p.pull_ctr % p.buckets.length) hilt
  have hunfold : MemPool.try_pull p
      = MemPool.try_pull_from_bucket { p with pull_ctr := (p.pull_ctr + 1) % USIZE }
          (p.pull_ctr % p.buckets.length) := by
    rw [MemPool.try_pull, if_neg hne]
  rw [try_pull_from_bucket_spec _ _ _ hget2] at hunfold
  cases hL : (p.buckets.getD (p.pull_ctr % p.buckets.length) []).getLast? with
  | none => rw [hL] at hunfold; exact ⟨_, _, hunfold⟩
  | some m => rw [hL] at hunfold; exact ⟨_, _, hunfold⟩

theorem try_pull_all_total {T : Type} (p : MemPool T) (hn : 0 < p.buckets.length) :
    ∃ r p2, MemPool.try_pull_from_all_buckets p = some (r, p2) := by
  have hne : p.buckets.length ≠ 0 := by omega
  have hunfold : MemPool.try_pull_from_all_buckets p
      = MemPool.try_pull_all_loop { p with pull_ctr := (p.pull_ctr + 1) % USIZE }
          p.buckets.length (p.pull_ctr % p.buckets.length) 0 p.buckets.length := by
    rw [MemPool.try_pull_from_all_buckets, if_neg hne]
  rw [try_pull_all_loop_spec2 { p with pull_ctr := (p.pull_ctr + 1) % USIZE }
      p.buckets p.buckets.length (p.pull_ctr % p.buckets.length) rfl rfl hn
      p.buckets.length 0 (by omega)] at hunfold
  cases hfp : firstProbe (fun j => !(p.buckets.getD j []).isEmpty)
      p.buckets.length (p.pull_ctr % p.buckets.length) 0 p.buckets.length with
  | none => rw [hfp] at hunfold; exact ⟨_, _, hunfold⟩
  | some j => rw [hfp] at hunfold; exact ⟨_, _, hunfold⟩

theorem re_attach_total {T : Type} (p : MemPool T) (x : T)
    (hn : 0 < p.buckets.length) : ∃ p2, MemPool.re_attach p x = some p2 := by
  have hne : p.buckets.length ≠ 0 := by omega
  have heq : MemPool.re_attach p x
      = (MemPool.re_attach_loop x p.capacity p.buckets.length
            (p.insert_ctr % p.buckets.length) p.buckets 0 (p.buckets.length + 1)).map
          (fun bs =>
            { p with buckets := bs, insert_ctr := (p.insert_ctr + 1) % USIZE }) := by
    rw [MemPool.re_attach, if_neg hne]
  rw [re_attach_loop_spec x p.capacity (p.insert_ctr % p.buckets.length) p.buckets hn
      (p.buckets.length + 1) 0 (by omega) (fun hcon => absurd hcon (by omega))] at heq
  exact ⟨_, by rw [heq]; rfl⟩

theorem try_pull_all_loop_handle {T : Type} (n b : Nat) :
    ∀ fuel (p : MemPool T) inc (r : ModifiableMemShare T) (p2 : MemPool T),
      MemPool.try_pull_all_loop p n b inc fuel = some (some r, p2) →
      ∃ m, r.mem = some m := by
  intro fuel
  induction fuel with
  | zero =>
    intro p inc r p2 h
    rw [MemPool.try_pull_all_loop] at h
    simp at h
  | succ fuel ih =>
    intro p inc r p2 h
    rw [MemPool.try_pull_all_loop] at h
    cases hb : MemPool.try_pull_from_bucket p ((b + inc) % n) with
    | none => rw [hb] at h; cases h
    | some rp =>
      obtain ⟨rr, q⟩ := rp
      cases rr with
      | none =>
        simp only [hb] at h
        exact ih q (inc + 1) r p2 h
      | some hh =>
        simp only [hb, Option.some.injEq, Prod.mk.injEq] at h
        obtain ⟨hhr, hq⟩ := h
        subst hhr
        rcases (try_pull_from_bucket_shape p _ _ _ hb).2.2.2 with ⟨hr, _⟩ |
          ⟨bj, m, hg, hL, hr, hb2, hmem⟩
        · cases hr
        · injection hr with hr
          exact ⟨m, by rw [hr]⟩

theorem try_pull_handle_mem {T : Type} (p p2 : MemPool T) (r : ModifiableMemShare T)
    (h : MemPool.try_pull p = some (some r, p2)) : ∃ m, r.mem = some m := by
  rw [MemPool.try_pull] at h
  by_cases hn : p.buckets.length = 0
  · rw [if_pos hn] at h; cases h
  · rw [if_neg hn] at h
    rcases (try_pull_from_bucket_shape _ _ _ _ h).2.2.2 with ⟨hr, _⟩ |
      ⟨bj, m, hg, hL, hr, hb2, hmem⟩
    · cases hr
    · injection hr with hr
      exact ⟨m, by rw [hr]⟩

theorem try_pull_all_handle_mem {T : Type} (p p2 : MemPool T)
    (r : ModifiableMemShare T)
    (h : MemPool.try_pull_from_all_buckets p = some (some r, p2)) :
    ∃ m, r.mem = some m := by
  rw [MemPool.try_pull_from_all_buckets] at h
  by_cases hn : p.buckets.length = 0
  · rw [if_pos hn] at h; cases h
  · rw [if_neg hn] at h
    exact try_pull_all_loop_handle _ _ _ _ _ _ _ h

/-- C7: `try_pull_from_all_buckets` starts at shard
`pull_ctr % shardCount` (the old counter value) and probes all `shardCount`
shards linearly with wrap-around (the start plus the remaining
`shardCount - 1` on a miss); it returns `None` if and only if every shard is
empty, and otherwise pops and returns an item from the first non-empty shard
in that wrap-around probe order (`firstProbe` is that probe order). -/
theorem try_pull_any_shard_finds_first_nonempty {T : Type} (p : MemPool T)
    (hn : 0 < p.buckets.length) :
    ∃ r p2, MemPool.try_pull_from_all_buckets p = some (r, p2) ∧
      p2.pull_ctr = (p.pull_ctr + 1) % USIZE ∧
      p2.insert_ctr = p.insert_ctr ∧
      p2.capacity = p.capacity ∧
      (r = none ↔ ∀ bj ∈ p.buckets, bj = []) ∧
      (r = none → p2.buckets = p.buckets) ∧
      ∀ j, firstProbe (fun i => !(p.buckets.getD i []).isEmpty) p.buckets.length
          (p.pull_ctr % p.buckets.length) 0 p.buckets.length = some j →
        ∃ m, (p.buckets.getD j []).getLast? = some m ∧ r = some ⟨some m⟩ ∧
          p2.buckets = p.buckets.set j (p.buckets.getD j []).dropLast := by
  have hne : p.buckets.length ≠ 0 := by omega
  have hunfold : MemPool.try_pull_from_all_buckets p
      = MemPool.try_pull_all_loop { p with pull_ctr := (p.pull_ctr + 1) % USIZE }
          p.buckets.length (p.pull_ctr % p.buckets.length) 0 p.buckets.length := by
    rw [MemPool.try_pull_from_all_buckets, if_neg hne]
  rw [try_pull_all_loop_spec2 { p with pull_ctr := (p.pull_ctr + 1) % USIZE }
      p.buckets p.buckets.length (p.pull_ctr % p.buckets.length) rfl rfl hn
      p.buckets.length 0 (by omega)] at hunfold
  cases hfp : firstProbe (fun j => !(p.buckets.getD j []).isEmpty)
      p.buckets.length (p.pull_ctr % p.buckets.length) 0 p.buckets.length with
  | none =>
    simp only [hfp] at hunfold
    refine ⟨none, ⟨p.buckets, (p.pull_ctr + 1) % USIZE, p.insert_ctr, p.capacity⟩,
      by rw [hunfold], rfl, rfl, rfl, ?_, fun _ => rfl, ?_⟩
    · constructor
      · intro _
        have hall := (firstProbe_zero_none_iff hn).mp hfp
        intro bj hbj
        obtain ⟨i, hi, hbi⟩ := List.mem_iff_getElem.mp hbj
        have hq := hall i hi
        have h2 : (p.buckets.getD i []).isEmpty = true := by
          cases hbb : (p.buckets.getD i []).isEmpty
          · rw [hbb] at hq; cases hq
          · rfl
        have h3 := List.isEmpty_iff.mp h2
        rw [getD_lt p.buckets i hi] at h3
        rw [← hbi]
        exact h3
      · intro _; rfl
    · intro j hj
      cases hj
  | some j0 =>
    simp only [hfp] at hunfold
    have hq := (firstProbe_some_spec _ _ j0 hfp).1
    have hjlt := (firstProbe_some_spec _ _ j0 hfp).2 hn
    have hnonempty : p.buckets.getD j0 [] ≠ [] := by
      intro hcon
      rw [hcon] at hq
      cases hq
    obtain ⟨m, hm⟩ : ∃ m, (p.buckets.getD j0 []).getLast? = some m := by
      cases hLL : (p.buckets.getD j0 []).getLast? with
      | none => exact absurd (List.getLast?_eq_none_iff.mp hLL) hnonempty
      | some m => exact ⟨m, rfl⟩
    refine ⟨some ⟨some m⟩,
      ⟨p.buckets.set j0 (p.buckets.getD j0 []).dropLast,
        (p.pull_ctr + 1) % USIZE, p.insert_ctr, p.capacity⟩,
      ?_, rfl, rfl, rfl, ?_, ?_, ?_⟩
    · rw [hunfold, hm]
    · constructor
      · intro hcon; cases hcon
      · intro hall
        exfalso
        exact hnonempty (by rw [getD_lt _ _ hjlt]; exact hall _ (List.getElem_mem hjlt))
    · intro hcon; cases hcon
    · intro j hj
      injection hj with hj
      subst hj
      exact ⟨m, hm, rfl, rfl⟩

/-- Witness for C7 at a concrete input: a two-shard pool where shard 0 is
empty and shard 1 holds `5`. -/
theorem try_pull_any_shard_finds_first_nonempty_witness :
    ∃ r p2, MemPool.try_pull_from_all_buckets (⟨[[], [5]], 0, 0, 1⟩ : MemPool Nat)
        = some (r, p2) ∧
      p2.pull_ctr = (0 + 1) % USIZE ∧
      p2.insert_ctr = 0 ∧
      p2.capacity = 1 ∧
      (r = none ↔ ∀ bj ∈ ([[], [5]] : List (List Nat)), bj = []) ∧
      (r = none → p2.buckets = [[], [5]]) ∧
      ∀ j, firstProbe (fun i => !(([[], [5]] : List (List Nat)).getD i []).isEmpty)
          2 0 0 2 = some j →
        ∃ m, (([[], [5]] : List (List Nat)).getD j []).getLast? = some m ∧
          r = some ⟨some m⟩ ∧
          p2.buckets = ([[], [5]] : List (List Nat)).set j
            (([[], [5]] : List (List Nat)).getD j []).dropLast :=
  try_pull_any_shard_finds_first_nonempty (⟨[[], [5]], 0, 0, 1⟩ : MemPool Nat)
    (by decide)

/-- C9: whenever the pool has at least one bucket, the bucket index computed
as `counter % buckets.len()` is strictly below `buckets.len()`, and
`try_pull`, `try_pull_from_all_buckets` and `re_attach` all complete without
a panic (every `self.buckets[...]` access is in bounds); with
`bucket_count = 0` the constructor still succeeds and yields a pool with an
empty shard vector — the constructor performs no check — but every pull or
return operation then panics on `% 0` (the `none` results). -/
theorem bucket_index_always_in_bounds {T : Type} (p : MemPool T) (x : T)
    (c : Nat) (f : Nat → T) (hn : 0 < p.buckets.length) :
    p.pull_ctr % p.buckets.length < p.buckets.length ∧
    p.insert_ctr % p.buckets.length < p.buckets.length ∧
    (MemPool.try_pull p).isSome = true ∧
    (MemPool.try_pull_from_all_buckets p).isSome = true ∧
    (MemPool.re_attach p x).isSome = true ∧
    (MemPool.new 0 c f : MemPool T).buckets = [] ∧
    MemPool.try_pull (MemPool.new 0 c f : MemPool T) = none ∧
    MemPool.try_pull_from_all_buckets (MemPool.new 0 c f : MemPool T) = none ∧
    MemPool.re_attach (MemPool.new 0 c f : MemPool T) x = none := by
  obtain ⟨r1, p21, h1⟩ := try_pull_total p hn
  obtain ⟨r2, p22, h2⟩ := try_pull_all_total p hn
  obtain ⟨p23, h3⟩ := re_attach_total p x hn
  exact ⟨Nat.mod_lt _ hn, Nat.mod_lt _ hn, by rw [h1]; rfl, by rw [h2]; rfl,
    by rw [h3]; rfl, rfl, rfl, rfl, rfl⟩

/-- Witness for C9 at a concrete input: a one-bucket pool with an empty
bucket, and the zero-bucket pool built by `new 0`. -/
theorem bucket_index_always_in_bounds_witness :
    (0 : Nat) % 1 < 1 ∧
    (0 : Nat) % 1 < 1 ∧
    (MemPool.try_pull (⟨[[]], 0, 0, 1⟩ : MemPool Nat)).isSome = true ∧
    (MemPool.try_pull_from_all_buckets (⟨[[]], 0, 0, 1⟩ : MemPool Nat)).isSome = true ∧
    (MemPool.re_attach (⟨[[]], 0, 0, 1⟩ : MemPool Nat) 5).isSome = true ∧
    (MemPool.new 0 1 (fun i => i) : MemPool Nat).buckets = [] ∧
    MemPool.try_pull (MemPool.new 0 1 (fun i => i) : MemPool Nat) = none ∧
    MemPool.try_pull_from_all_buckets (MemPool.new 0 1 (fun i => i) : MemPool Nat) = none ∧
    MemPool.re_attach (MemPool.new 0 1 (fun i => i) : MemPool Nat) 5 = none :=
  bucket_index_always_in_bounds (⟨[[]], 0, 0, 1⟩ : MemPool Nat) 5 1 (fun i => i)
    (by decide)

/-- C10: every handle reachable through the public interface holds its item:
the handles produced by `try_pull`, `try_pull_from_all_buckets` and
`pull_with_fallback` all carry `mem = Some _`, `freeze` and `unfreeze`
transport a present payload, and on any handle whose payload is present the
`Deref`/`DerefMut`/`detach` operations of both handle types return the item
rather than reaching their `None` arms (the `unreachable!()` panics, embedded
as `none`, are not executed). -/
theorem handle_payload_always_present {T S : Type} :
    (∀ (p p2 : MemPool T) (r : ModifiableMemShare T),
        MemPool.try_pull p = some (some r, p2) → ∃ m, r.mem = some m) ∧
    (∀ (p p2 : MemPool T) (r : ModifiableMemShare T),
        MemPool.try_pull_from_all_buckets p = some (some r, p2) →
        ∃ m, r.mem = some m) ∧
    (∀ (p p2 : MemPool T) (σ σ2 : S) (fb : S → T × S) (r : ModifiableMemShare T),
        MemPool.pull_with_fallback p σ fb = some (r, p2, σ2) → ∃ m, r.mem = some m) ∧
    (∀ (hdl : ModifiableMemShare T) (m : T), hdl.mem = some m →
        (ModifiableMemShare.freeze hdl).1.value.mem = some m ∧
        ShareableMemShare.deref (ModifiableMemShare.freeze hdl).1.value = some m) ∧
    (∀ (s : ShareableMemShare T) (m : T), s.mem = some m →
        (ShareableMemShare.unfreeze s).mem = some m ∧
        ShareableMemShare.deref s = some m ∧
        ShareableMemShare.detach s = some (m, ⟨none⟩)) ∧
    (∀ (hdl : ModifiableMemShare T) (m : T), hdl.mem = some m →
        ModifiableMemShare.deref hdl = some m ∧
        ModifiableMemShare.deref_mut hdl = some m ∧
        ModifiableMemShare.detach hdl = some (m, ⟨none⟩)) := by
  refine ⟨fun p p2 r h => try_pull_handle_mem p p2 r h,
    fun p p2 r h => try_pull_all_handle_mem p p2 r h, ?_, ?_, ?_, ?_⟩
  · intro p p2 σ σ2 fb r h
    rw [MemPool.pull_with_fallback] at h
    cases ha : MemPool.try_pull_from_all_buckets p with
    | none => rw [ha] at h; cases h
    | some rp =>
      obtain ⟨rr, q⟩ := rp
      cases rr with
      | none =>
        simp only [ha, Option.some.injEq, Prod.mk.injEq] at h
        exact ⟨(fb σ).1, by rw [← h.1]⟩
      | some hh =>
        simp only [ha, Option.some.injEq, Prod.mk.injEq] at h
        obtain ⟨m, hm⟩ := try_pull_all_handle_mem p q hh ha
        exact ⟨m, by rw [← h.1]; exact hm⟩
  · intro hdl m hm
    exact ⟨hm, by
      simp only [ModifiableMemShare.freeze, ArcCell.new, ShareableMemShare.deref]
      rw [hm]⟩
  · intro s m hm
    refine ⟨hm, ?_, ?_⟩
    · simp only [ShareableMemShare.deref]; rw [hm]
    · simp only [ShareableMemShare.detach]; rw [hm]
  · intro hdl m hm
    refine ⟨?_, ?_, ?_⟩
    · simp only [ModifiableMemShare.deref]; rw [hm]
    · simp only [ModifiableMemShare.deref_mut]; rw [hm]
    · simp only [ModifiableMemShare.detach]; rw [hm]

/-- Witness for C10 at concrete inputs: a pull from `[[3]]`, a probing pull
from `[[], [5]]`, a fallback pull from an exhausted pool, and a dereference
of a handle holding `7`. -/
theorem handle_payload_always_present_witness :
    (∃ m, ({ mem := some 3 } : ModifiableMemShare Nat).mem = some m) ∧
    (∃ m, ({ mem := some 5 } : ModifiableMemShare Nat).mem = some m) ∧
    (∃ m, ({ mem := some 9 } : ModifiableMemShare Nat).mem = some m) ∧
    ModifiableMemShare.deref ({ mem := some 7 } : ModifiableMemShare Nat) = some 7 :=
  ⟨(handle_payload_always_present (T := Nat) (S := Unit)).1
      ⟨[[3]], 0, 0, 1⟩ ⟨[[]], 1, 0, 1⟩ ⟨some 3⟩ (by decide),
   (handle_payload_always_present (T := Nat) (S := Unit)).2.1
      ⟨[[], [5]], 0, 0, 1⟩ ⟨[[], []], 1, 0, 1⟩ ⟨some 5⟩ (by decide),
   (handle_payload_always_present (T := Nat) (S := Unit)).2.2.1
      ⟨[[]], 0, 0, 1⟩ ⟨[[]], 1, 0, 1⟩ () () (fun u => (9, u)) ⟨some 9⟩ (by decide),
   ((handle_payload_always_present (T := Nat) (S := Unit)).2.2.2.2.2
      ⟨some 7⟩ 7 rfl).1⟩

/-- C8 counterexample: the Exclusive Handle produced by `pull_with_fallback`
on a miss records no shard index at all.  Two exhausted three-shard pools
whose probe sequences start at different shards (`pull_ctr` 3 and 4, so start
indices 0 and 1) yield the *same* handle value `{ mem := some 99 }`; and when
such a handle is later released, the receiving shard is chosen by the pool's
return counter (here `insert_ctr = 2` sends `99` to shard 2), not by any
index stored in the handle — so the handle does not point at the shard index
that was being probed.  Both pool states are exhibited as reachable from
`new 3 1` by pulls. -/
theorem fallback_handle_records_no_shard_index :
    runOps (MemPool.new 3 1 (fun i => i)) [Op.tryPull, Op.tryPull, Op.tryPull]
      = some ⟨[[], [], []], 3, 0, 1⟩ ∧
    runOps (MemPool.new 3 1 (fun i => i)) [Op.tryPull, Op.tryPull, Op.tryPull, Op.tryPull]
      = some ⟨[[], [], []], 4, 0, 1⟩ ∧
    (3 : Nat) % 3 = 0 ∧ (4 : Nat) % 3 = 1 ∧
    MemPool.pull_with_fallback (⟨[[], [], []], 3, 0, 1⟩ : MemPool Nat) ()
        (fun u => (99, u)) = some (⟨some 99⟩, ⟨[[], [], []], 4, 0, 1⟩, ()) ∧
    MemPool.pull_with_fallback (⟨[[], [], []], 4, 0, 1⟩ : MemPool Nat) ()
        (fun u => (99, u)) = some (⟨some 99⟩, ⟨[[], [], []], 5, 0, 1⟩, ()) ∧
    dropModifiable (⟨[[97], [98], []], 5, 2, 1⟩ : MemPool Nat) ⟨some 99⟩
      = some ⟨[[97], [98], [99]], 5, 3, 1⟩ := by
  decide

/-- C8 amended: `pull_with_fallback` never returns empty — it first calls
`try_pull_from_all_buckets`, and on a miss invokes the caller-supplied
factory exactly once (the closure state advances by exactly one application)
and wraps the brand-new item in an Exclusive Handle referencing the pool
itself; the handle records no shard index, and a later release picks its
target shard from the return counter, so the item still returns to a real
shard of the pool. -/
theorem pull_with_fallback_never_empty {T S : Type} (p : MemPool T) (σ : S)
    (fb : S → T × S) (hn : 0 < p.buckets.length) :
    ∃ h p2 σ2, MemPool.pull_with_fallback p σ fb = some (h, p2, σ2) ∧
      h.mem.isSome = true ∧
      (∀ p3, MemPool.try_pull_from_all_buckets p = some (none, p3) →
        h.mem = some (fb σ).1 ∧ σ2 = (fb σ).2 ∧ p2 = p3) ∧
      (∀ h0 p3, MemPool.try_pull_from_all_buckets p = some (some h0, p3) →
        h = h0 ∧ σ2 = σ ∧ p2 = p3) := by
  obtain ⟨r, q, ha⟩ := try_pull_all_total p hn
  cases r with
  | none =>
    have hres : MemPool.pull_with_fallback p σ fb
        = some (⟨some (fb σ).1⟩, q, (fb σ).2) := by
      simp only [MemPool.pull_with_fallback, ha]
    refine ⟨⟨some (fb σ).1⟩, q, (fb σ).2, hres, rfl, ?_, ?_⟩
    · intro p3 h3
      rw [ha] at h3
      injection h3 with h3
      injection h3 with h31 h32
      exact ⟨rfl, rfl, h32⟩
    · intro h0 p3 hcon
      rw [ha] at hcon
      injection hcon with hcon
      injection hcon with hc1 hc2
      exact Option.noConfusion hc1
  | some hh =>
    obtain ⟨m, hm⟩ := try_pull_all_handle_mem p q hh ha
    have hres : MemPool.pull_with_fallback p σ fb = some (hh, q, σ) := by
      simp only [MemPool.pull_with_fallback, ha]
    refine ⟨hh, q, σ, hres, by rw [hm]; rfl, ?_, ?_⟩
    · intro p3 h3
      rw [ha] at h3
      injection h3 with h3
      injection h3 with h31 h32
      exact Option.noConfusion h31
    · intro h0 p3 hcon
      rw [ha] at hcon
      injection hcon with hcon
      injection hcon with hc1 hc2
      injection hc1 with hc1
      exact ⟨hc1, rfl, hc2⟩

/-- Witness for C8 (amended) at a concrete input: an exhausted one-shard pool
with factory item `42`. -/
theorem pull_with_fallback_never_empty_witness :
    ∃ h p2 σ2, MemPool.pull_with_fallback (⟨[[]], 0, 0, 1⟩ : MemPool Nat) ()
        (fun u => (42, u)) = some (h, p2, σ2) ∧
      h.mem.isSome = true ∧
      (∀ p3, MemPool.try_pull_from_all_buckets (⟨[[]], 0, 0, 1⟩ : MemPool Nat)
          = some (none, p3) →
        h.mem = some 42 ∧ σ2 = () ∧ p2 = p3) ∧
      (∀ h0 p3, MemPool.try_pull_from_all_buckets (⟨[[]], 0, 0, 1⟩ : MemPool Nat)
          = some (some h0, p3) →
        h = h0 ∧ σ2 = () ∧ p2 = p3) :=
  pull_with_fallback_never_empty (⟨[[]], 0, 0, 1⟩ : MemPool Nat) ()
    (fun u => (42, u)) (by decide)
